import Mathlib

/-!
Verification of the message-namespace validator of `IntlProvider.tsx`
(`validateMessagesSegment` / `validateMessages`) and of the default
message fallback (`defaultGetMessageFallback`).

The embedding is shallow: the nested messages dictionary becomes an
inductive tree, the mutable `invalidKeyLabels` array becomes an explicit
accumulator that each call extends, and the `onError` callback becomes a
returned list of the errors it was invoked with.  A second, extended
value model (`JsValue`) captures the JavaScript runtime values (strings,
numbers, booleans, null, arrays, plain objects) together with the dynamic
`typeof v === 'object'` check and the behaviour of `Object.entries`, so
that claims about non-dictionary values can be settled against what the
code actually does at runtime.
-/

/-- Modelled from the spec: the type `AbstractIntlMessages` is imported from
`./AbstractIntlMessages`, a module absent from the sources.  Per the spec's
data model, a messages dictionary maps string keys to either a leaf value
(a translatable string) or another messages dictionary.  A dictionary is a
finite ordered association list (JavaScript objects enumerate string keys
in insertion order). -/
inductive IntlMessage where
  | str : String → IntlMessage
  | dict : List (String × IntlMessage) → IntlMessage
deriving Repr

/-- Modelled from the spec: a messages dictionary, the entry list of a root
object (string keys to leaves or nested dictionaries, in insertion order). -/
abbrev AbstractIntlMessages := List (String × IntlMessage)

/-- Modelled from the spec: `IntlErrorCode` (imported from `./IntlError`,
absent from the sources); only the "invalid key" kind is used here. -/
inductive IntlErrorCode where
  | INVALID_KEY
deriving Repr, DecidableEq

/-- Modelled from the spec: `IntlError` (imported from `./IntlError`, absent
from the sources) is a diagnostic error carrying an error kind and a
message. -/
structure IntlError where
  code : IntlErrorCode
  message : String
deriving Repr, DecidableEq

/-- JavaScript `Array.prototype.join('.')`: the elements interleaved with
the separator `"."` (empty string for the empty array). -/
def joinDot : List String → String
  | [] => ""
  | [x] => x
  | x :: xs => x ++ "." ++ joinDot xs

/-- `[parentPath, key].filter((part) => part != null).join('.')`:
an absent (`undefined`) parent path is filtered out, a present one (even
`""`) is kept. -/
def joinPath (parentPath : Option String) (key : String) : String :=
  joinDot (([parentPath, some key]).filterMap id)

/-- The label construction of `validateMessagesSegment`:
`let keyLabel = key; if (parentPath) keyLabel += ` (at ${parentPath})`;`.
`if (parentPath)` tests JavaScript truthiness: `undefined` and `""` are
falsy, every other string is truthy. -/
def mkKeyLabel (key : String) (parentPath : Option String) : String :=
  match parentPath with
  | none => key
  | some s => if s != "" then key ++ " (at " ++ s ++ ")" else key

/-- `key.includes('.')`: for the one-character search string `"."` this is
exactly membership of the character `'.'` among the key's characters. -/
def keyHasDot (key : String) : Bool :=
  key.toList.contains '.'

/-- The body of the `forEach` before any recursion: if the key contains
`'.'`, push its label onto the accumulated array. -/
def pushOwnLabel (key : String) (parentPath : Option String)
    (acc : List String) : List String :=
  if keyHasDot key then acc ++ [mkKeyLabel key parentPath] else acc

/-- `validateMessagesSegment(messagesPart, invalidKeyLabels, parentPath)`
over the spec data model.  `Object.entries(messagesPart)` is walked in
order; for each `[key, messageOrMessages]` the key is checked for `'.'`,
and when `typeof messageOrMessages === 'object'` (here: exactly the
nested-dictionary case) the walk recurses with the extended parent path.
The mutable `invalidKeyLabels` array is the accumulator; the returned list
is its final contents. -/
def validateMessagesSegment :
    AbstractIntlMessages → List String → Option String → List String
  | [], acc, _ => acc
  | (key, .str _) :: rest, acc, parentPath =>
      validateMessagesSegment rest (pushOwnLabel key parentPath acc) parentPath
  | (key, .dict es) :: rest, acc, parentPath =>
      validateMessagesSegment rest
        (validateMessagesSegment es (pushOwnLabel key parentPath acc)
          (some (joinPath parentPath key)))
        parentPath

/-- The diagnostic message built by `validateMessages` when invalid keys
were collected. -/
def invalidKeyMessage (invalidKeyLabels : List String) : String :=
  "Namespace keys can not contain the character \".\" as this is used to express nesting. Please remove it or replace it with another character.\n\nInvalid "
    ++ (if invalidKeyLabels.length = 1 then "key" else "keys")
    ++ ": " ++ String.intercalate ", " invalidKeyLabels

/-- `validateMessages()`: bail out on absent messages, otherwise collect
the invalid-key labels starting from a fresh empty array, and when the
list is non-empty invoke `onError` once with an `INVALID_KEY` error.
The first component is the collected label list, the second the sequence
of `onError` invocations. -/
def validateMessages (messages : Option AbstractIntlMessages) :
    List String × List IntlError :=
  match messages with
  | none => ([], [])
  | some m =>
      let invalidKeyLabels := validateMessagesSegment m [] none
      if invalidKeyLabels.length > 0 then
        (invalidKeyLabels,
          [⟨IntlErrorCode.INVALID_KEY, invalidKeyMessage invalidKeyLabels⟩])
      else
        (invalidKeyLabels, [])

/-- `defaultGetMessageFallback({key, namespace})`:
`[namespace, key].filter((part) => part != null).join('.')`. -/
def defaultGetMessageFallback (ns : Option String) (key : String) : String :=
  joinDot (([ns, some key]).filterMap id)

/-- The labels one entry contributes before any recursion: a singleton
when the key contains the reserved character, nothing otherwise. -/
def ownLabel (key : String) (parentPath : Option String) : List String :=
  if keyHasDot key then [mkKeyLabel key parentPath] else []

/-- Accumulator-free reformulation of the walk: the labels contributed by
a segment of the dictionary, in discovery order (own label first, then
the subtree, then the later siblings). -/
def segLabels : AbstractIntlMessages → Option String → List String
  | [], _ => []
  | (key, .str _) :: rest, p => ownLabel key p ++ segLabels rest p
  | (key, .dict es) :: rest, p =>
      ownLabel key p ++ segLabels es (some (joinPath p key)) ++ segLabels rest p

/-- Spec-side definition, following the spec's words for claim C1: a key
containing the reserved character is reported as the key itself, suffixed
with `" (at <parentPath>)"` when a parent path exists, where the parent
path is the dot-joined chain of ancestor keys.  "A parent path exists" is
read as the dot-joined ancestor chain being a non-empty string, which is
also how the joined-and-filtered path of the walk behaves. -/
def specKeyLabel (key : String) (ancestors : List String) : String :=
  if joinDot ancestors = "" then key
  else key ++ " (at " ++ joinDot ancestors ++ ")"

/-- Spec-side definition for claim C1: the label list computed directly
from the ancestor chain rather than from an incrementally joined path —
one label for each key containing the reserved character, none for any
other key, depth-first in per-level order. -/
def specInvalidKeyLabels : AbstractIntlMessages → List String → List String
  | [], _ => []
  | (key, .str _) :: rest, ancestors =>
      (if keyHasDot key then [specKeyLabel key ancestors] else []) ++
        specInvalidKeyLabels rest ancestors
  | (key, .dict es) :: rest, ancestors =>
      (if keyHasDot key then [specKeyLabel key ancestors] else []) ++
        specInvalidKeyLabels es (ancestors ++ [key]) ++
        specInvalidKeyLabels rest ancestors

/-- The parent path that the walk carries at a node whose ancestor chain
is `ancestors`: absent at the root, otherwise the dot-joined chain. -/
def pathOf : List String → Option String
  | [] => none
  | ancestors => some (joinDot ancestors)

/-- Erase the contents of every leaf string (replace it by `""`), keeping
the key structure; two dictionaries with the same nested key structure
that differ only in leaf contents erase to the same tree. -/
def eraseLeafValues : AbstractIntlMessages → AbstractIntlMessages
  | [] => []
  | (key, .str _) :: rest => (key, .str "") :: eraseLeafValues rest
  | (key, .dict es) :: rest =>
      (key, .dict (eraseLeafValues es)) :: eraseLeafValues rest

/-- A JavaScript runtime value, as far as the validator can observe it:
leaf strings, numbers, booleans, `null`, arrays and plain objects
(ordered string-keyed entry lists). -/
inductive JsValue where
  | str : String → JsValue
  | num : Int → JsValue
  | bool : Bool → JsValue
  | null : JsValue
  | arr : List JsValue → JsValue
  | obj : List (String × JsValue) → JsValue

/-- The runtime test `typeof v === 'object'`: true for plain objects,
arrays and `null`, false for strings, numbers and booleans. -/
def typeofIsObject : JsValue → Bool
  | .str _ => false
  | .num _ => false
  | .bool _ => false
  | .null => true
  | .arr _ => true
  | .obj _ => true

/-- The message thrown by `Object.entries(null)`. -/
def nullEntriesError : String :=
  "TypeError: Cannot convert undefined or null to object"

mutual

/-- `validateMessagesSegment` over arbitrary runtime values: the walk of
`Object.entries` of an object-typed value, with the accumulated label
array.  `Object.entries` of a plain object yields its entries in
insertion order; of an array it yields the index keys `"0"`, `"1"`, …
with the elements; on `null` it throws a `TypeError`, modelled by
`Except.error`. -/
def validateJsEntries :
    List (String × JsValue) → List String → Option String →
      Except String (List String)
  | [], acc, _ => .ok acc
  | (key, v) :: rest, acc, parentPath =>
      match validateJsValue v (pushOwnLabel key parentPath acc)
          (joinPath parentPath key) with
      | .error e => .error e
      | .ok acc2 => validateJsEntries rest acc2 parentPath

/-- The guarded recursion step of the `forEach` body: when
`typeof messageOrMessages === 'object'` holds the walk recurses into the
value (enumerating object entries, array index entries, or throwing on
`null`); otherwise the value is left alone. -/
def validateJsValue :
    JsValue → List String → String → Except String (List String)
  | .str _, acc, _ => .ok acc
  | .num _, acc, _ => .ok acc
  | .bool _, acc, _ => .ok acc
  | .null, _, _ => .error nullEntriesError
  | .arr xs, acc, childPath => validateJsArray xs 0 acc childPath
  | .obj es, acc, childPath => validateJsEntries es acc (some childPath)

/-- The walk over `Object.entries` of an array: index keys `"0"`, `"1"`,
… paired with the elements, in order. -/
def validateJsArray :
    List JsValue → Nat → List String → String → Except String (List String)
  | [], _, acc, _ => .ok acc
  | v :: rest, i, acc, parentPath =>
      match validateJsValue v (pushOwnLabel (toString i) (some parentPath) acc)
          (joinPath (some parentPath) (toString i)) with
      | .error e => .error e
      | .ok acc2 => validateJsArray rest (i + 1) acc2 parentPath

end

/-- The inclusion of the spec data model into the runtime values: leaves
become strings, nested dictionaries become plain objects. -/
def entriesToJs : AbstractIntlMessages → List (String × JsValue)
  | [] => []
  | (key, .str s) :: rest => (key, .str s) :: entriesToJs rest
  | (key, .dict es) :: rest => (key, .obj (entriesToJs es)) :: entriesToJs rest

/-- The state the validation effect runs in: the provider's messages
dictionary (read by the walk) and the stream of errors reported through
`onError` (the only thing the effect writes). -/
structure ProviderState where
  messages : Option AbstractIntlMessages
  errorLog : List IntlError

/-- One run of the `useEffect` validation pass: it reads `messages`,
runs `validateMessages()` and appends the reported errors to the error
stream; the messages dictionary itself is only read. -/
def runValidationEffect (s : ProviderState) : ProviderState :=
  { s with errorLog := s.errorLog ++ (validateMessages s.messages).2 }

theorem pushOwnLabel_eq (key : String) (p : Option String) (acc : List String) :
    pushOwnLabel key p acc = acc ++ ownLabel key p := by
  unfold pushOwnLabel ownLabel
  by_cases h : keyHasDot key <;> simp [h]

/-- The mutable-array walk computes the accumulator followed by the pure
per-segment labels. -/
theorem validateMessagesSegment_eq_acc_seg (es : AbstractIntlMessages)
    (acc : List String) (p : Option String) :
    validateMessagesSegment es acc p = acc ++ segLabels es p := by
  induction es, acc, p using validateMessagesSegment.induct with
  | case1 acc p => simp [validateMessagesSegment, segLabels]
  | case2 key s rest acc p ih =>
      simp only [validateMessagesSegment]
      rw [ih, pushOwnLabel_eq]
      simp only [segLabels, List.append_assoc]
  | case3 key es rest acc p ih1 ih2 =>
      simp only [validateMessagesSegment]
      rw [ih2, ih1, pushOwnLabel_eq]
      simp only [segLabels, List.append_assoc]

theorem validateMessagesSegment_nil_acc (es : AbstractIntlMessages)
    (p : Option String) :
    validateMessagesSegment es [] p = segLabels es p := by
  simpa using validateMessagesSegment_eq_acc_seg es [] p

example :
    validateMessagesSegment [("a.b", .str "x")] [] none = ["a.b"] := by
  simp only [validateMessagesSegment]
  decide
example :
    validateMessagesSegment [("group", .dict [("a.b", .str "x")])] [] none
      = ["a.b (at group)"] := by
  simp only [validateMessagesSegment]
  decide
example :
    validateMessagesSegment [("", .dict [("a.b", .str "x")])] [] none
      = ["a.b"] := by
  simp only [validateMessagesSegment]
  decide
example :
    validateMessagesSegment
      [("x.y", .dict [("p.q", .str "v")]), ("ok", .str "v"), ("z.", .str "v")]
      [] none
      = ["x.y", "p.q (at x.y)", "z."] := by
  simp only [validateMessagesSegment]
  decide

theorem joinDot_cons_cons (x y : String) (ys : List String) :
    joinDot (x :: y :: ys) = x ++ "." ++ joinDot (y :: ys) := rfl

theorem joinDot_append_last :
    ∀ (l : List String) (k : String), l ≠ [] →
      joinDot (l ++ [k]) = joinDot l ++ "." ++ k
  | [], _, h => absurd rfl h
  | [x], _, _ => rfl
  | x :: y :: ys, k, _ => by
      have ih := joinDot_append_last (y :: ys) k (by simp)
      show joinDot (x :: y :: (ys ++ [k])) = joinDot (x :: y :: ys) ++ "." ++ k
      rw [joinDot_cons_cons x y (ys ++ [k]), joinDot_cons_cons x y ys]
      rw [show y :: (ys ++ [k]) = (y :: ys) ++ [k] from rfl, ih]
      simp [String.append_assoc]

theorem pathOf_append (ancestors : List String) (key : String) :
    some (joinPath (pathOf ancestors) key) = pathOf (ancestors ++ [key]) := by
  cases ancestors with
  | nil => rfl
  | cons a l =>
      show some (joinPath (some (joinDot (a :: l))) key)
        = some (joinDot ((a :: l) ++ [key]))
      rw [joinDot_append_last (a :: l) key (by simp)]
      rfl

theorem mkKeyLabel_pathOf (key : String) (ancestors : List String) :
    mkKeyLabel key (pathOf ancestors) = specKeyLabel key ancestors := by
  cases ancestors with
  | nil => simp [pathOf, mkKeyLabel, specKeyLabel, joinDot]
  | cons a l =>
      simp only [pathOf, mkKeyLabel, specKeyLabel]
      by_cases h : joinDot (a :: l) = "" <;> simp [h]

/-- The incrementally joined parent path agrees with the spec-side
ancestor-chain formulation. -/
theorem segLabels_pathOf (es : AbstractIntlMessages) (ancestors : List String) :
    segLabels es (pathOf ancestors) = specInvalidKeyLabels es ancestors := by
  induction es, ancestors using specInvalidKeyLabels.induct with
  | case1 ancestors => simp [segLabels, specInvalidKeyLabels]
  | case2 key s rest ancestors ih =>
      simp only [segLabels, specInvalidKeyLabels, ownLabel, ih,
        mkKeyLabel_pathOf]
  | case3 key es rest ancestors ih1 ih2 =>
      simp only [segLabels, specInvalidKeyLabels, ownLabel, mkKeyLabel_pathOf,
        pathOf_append, ih1, ih2]

/-- The collected labels only depend on the key structure, never on the
contents of leaf values. -/
theorem segLabels_eraseLeafValues (es : AbstractIntlMessages)
    (p : Option String) :
    segLabels (eraseLeafValues es) p = segLabels es p := by
  induction es using eraseLeafValues.induct generalizing p with
  | case1 => simp only [eraseLeafValues]
  | case2 key s rest ih => simp only [eraseLeafValues, segLabels, ih]
  | case3 key es rest ih1 ih2 =>
      simp only [eraseLeafValues, segLabels, ih1, ih2]

/-- On every well-formed messages dictionary the runtime walk never
throws: it returns exactly the labels that the data-model walk collects. -/
theorem validateJsEntries_entriesToJs (es : AbstractIntlMessages)
    (acc : List String) (p : Option String) :
    validateJsEntries (entriesToJs es) acc p
      = .ok (validateMessagesSegment es acc p) := by
  induction es using entriesToJs.induct generalizing acc p with
  | case1 => simp only [entriesToJs, validateJsEntries, validateMessagesSegment]
  | case2 key s rest ih =>
      simp only [entriesToJs, validateJsEntries, validateJsValue,
        validateMessagesSegment, ih]
  | case3 key es rest ih1 ih2 =>
      simp only [entriesToJs, validateJsEntries, validateJsValue,
        validateMessagesSegment, ih1, ih2]

/-- C1: for every messages dictionary the validator returns a label for
each key, at any nesting depth, whose name contains `"."`, and no label
for any other key; each label is the key itself, suffixed with
`" (at P)"` exactly when the key has a (non-empty) parent path, where `P`
is the dot-joined chain of its ancestor keys.  Stated as: the walk equals
the spec-side label list computed from the ancestor chains. -/
theorem validateMessagesSegment_eq_spec (es : AbstractIntlMessages) :
    validateMessagesSegment es [] none = specInvalidKeyLabels es [] := by
  rw [validateMessagesSegment_nil_acc]
  have h := segLabels_pathOf es []
  rwa [show pathOf ([] : List String) = none from rfl] at h

/-- C2: for every messages dictionary the validator never throws — over
the runtime value model the walk of any well-formed dictionary returns
`Except.ok`, and the invalid-key condition surfaces only as the collected
label list that `validateMessages` hands to the `onError` callback. -/
theorem validateJsEntries_never_throws (es : AbstractIntlMessages)
    (acc : List String) (p : Option String) :
    validateJsEntries (entriesToJs es) acc p
      = Except.ok (validateMessagesSegment es acc p) :=
  validateJsEntries_entriesToJs es acc p

/-- C3, counterexample: the claim says a value that is not a nested
dictionary is never recursed into, in particular arrays are never
walked.  But `typeof` of an array is `'object'`, so the walk does
recurse into array values: on `{k: [{"a.b": "x"}]}` it collects the
label `"a.b (at k.0)"` (through the array's index key `"0"`) instead of
no label at all. -/
theorem validateJsEntries_array_walked :
    validateJsEntries
        [("k", JsValue.arr [JsValue.obj [("a.b", JsValue.str "x")]])] [] none
      = Except.ok ["a.b (at k.0)"]
    ∧ validateJsEntries
        [("k", JsValue.arr [JsValue.obj [("a.b", JsValue.str "x")]])] [] none
      ≠ Except.ok [] := by
  have h : validateJsEntries
      [("k", JsValue.arr [JsValue.obj [("a.b", JsValue.str "x")]])] [] none
      = Except.ok ["a.b (at k.0)"] := by
    simp only [validateJsEntries, validateJsValue, validateJsArray]
    rfl
  exact ⟨h, by rw [h]; simp⟩

/-- C3, amended: a value whose runtime `typeof` is not `'object'`
(strings, numbers, booleans) is treated as a leaf and not recursed into;
arrays and `null` satisfy the `typeof` check, so an array value is walked
(its elements enumerated under index keys) and a `null` value makes the
entry enumeration throw a `TypeError`. -/
theorem validateJsEntries_value_dispatch (key : String) (v : JsValue)
    (rest : List (String × JsValue)) (acc : List String) (p : Option String) :
    (typeofIsObject v = false →
      validateJsEntries ((key, v) :: rest) acc p
        = validateJsEntries rest (pushOwnLabel key p acc) p) ∧
    (∀ xs, v = JsValue.arr xs →
      validateJsEntries ((key, v) :: rest) acc p
        = match validateJsArray xs 0 (pushOwnLabel key p acc) (joinPath p key)
            with
          | .error e => .error e
          | .ok acc2 => validateJsEntries rest acc2 p) ∧
    (v = JsValue.null →
      validateJsEntries ((key, v) :: rest) acc p
        = .error nullEntriesError) := by
  refine ⟨?_, ?_, ?_⟩
  · intro h
    cases v with
    | str s => simp only [validateJsEntries, validateJsValue]
    | num n => simp only [validateJsEntries, validateJsValue]
    | bool b => simp only [validateJsEntries, validateJsValue]
    | null => simp [typeofIsObject] at h
    | arr xs => simp [typeofIsObject] at h
    | obj es => simp [typeofIsObject] at h
  · rintro xs rfl
    simp only [validateJsEntries, validateJsValue]
  · rintro rfl
    simp only [validateJsEntries, validateJsValue]

/-- Closed instance of the amended C3 theorem: a number value is skipped,
an (empty) array value is walked, a null value throws. -/
theorem validateJsEntries_value_dispatch_witness :
    (validateJsEntries [("k", JsValue.num 1)] [] none
      = validateJsEntries [] (pushOwnLabel "k" none []) none)
    ∧ (validateJsEntries [("k", JsValue.arr [])] [] none
      = match validateJsArray [] 0 (pushOwnLabel "k" none [])
            (joinPath none "k") with
        | .error e => .error e
        | .ok acc2 => validateJsEntries [] acc2 none)
    ∧ (validateJsEntries [("k", JsValue.null)] [] none
      = .error nullEntriesError) :=
  ⟨(validateJsEntries_value_dispatch "k" (JsValue.num 1) [] [] none).1 rfl,
   (validateJsEntries_value_dispatch "k" (JsValue.arr []) [] [] none).2.1
     [] rfl,
   (validateJsEntries_value_dispatch "k" JsValue.null [] [] none).2.2 rfl⟩

/-- C4: `validateMessages` invokes `onError` exactly once if and only if
the collected label list is non-empty; the error carries the
`INVALID_KEY` kind, its message ends with the comma-joined labels, and
it uses the singular "key" for exactly one label and the plural "keys"
otherwise. -/
theorem validateMessages_error_report (m : Option AbstractIntlMessages) :
    (validateMessages m).2 =
      if (validateMessages m).1 = [] then []
      else
        [⟨IntlErrorCode.INVALID_KEY,
          "Namespace keys can not contain the character \".\" as this is used to express nesting. Please remove it or replace it with another character.\n\nInvalid "
            ++ (if (validateMessages m).1.length = 1 then "key" else "keys")
            ++ ": " ++ String.intercalate ", " (validateMessages m).1⟩] := by
  cases m with
  | none => simp [validateMessages]
  | some x =>
      simp only [validateMessages, invalidKeyMessage]
      by_cases h : validateMessagesSegment x [] none = []
      · simp [h]
      · have hl : 0 < (validateMessagesSegment x [] none).length :=
          List.length_pos.mpr h
        simp [h, hl]

/-- C5: when the messages dictionary is absent, validation terminates
immediately with an empty label list and `onError` is never invoked. -/
theorem validateMessages_none_eq : validateMessages none = ([], []) := rfl

/-- C6: the label list is produced in depth-first discovery order over
the per-level insertion order: the first entry's own label (if any) comes
first, then all labels of that entry's subtree, then the labels of the
later sibling entries. -/
theorem validateMessagesSegment_dfs_order (key : String) (v : IntlMessage)
    (rest : AbstractIntlMessages) (p : Option String) :
    validateMessagesSegment ((key, v) :: rest) [] p =
      ownLabel key p
        ++ (match v with
            | .str _ => []
            | .dict es => validateMessagesSegment es [] (some (joinPath p key)))
        ++ validateMessagesSegment rest [] p := by
  cases v with
  | str s =>
      simp only [validateMessagesSegment_nil_acc]
      simp [segLabels]
  | dict es =>
      simp only [validateMessagesSegment_nil_acc]
      simp [segLabels]

/-- C7: validation is deterministic — two runs on the same unchanged
dictionary (each starting from its own fresh label array) yield identical
label lists. -/
theorem validateMessages_deterministic (m1 m2 : Option AbstractIntlMessages)
    (h : m1 = m2) :
    (validateMessages m1).1 = (validateMessages m2).1 := by
  rw [h]

/-- Closed instance of C7 at a concrete dictionary. -/
theorem validateMessages_deterministic_witness :
    (validateMessages (some [("a.b", IntlMessage.str "x")])).1
      = (validateMessages (some [("a.b", IntlMessage.str "x")])).1 :=
  validateMessages_deterministic _ _ rfl

/-- C8: the validation pass only reports errors; the messages dictionary
component of the state it runs in is left untouched. -/
theorem runValidationEffect_preserves_messages (s : ProviderState) :
    (runValidationEffect s).messages = s.messages := rfl

/-- C9: two dictionaries with the same nested key structure that differ
only in the contents of their leaf string values produce identical label
lists; a `"."` inside a leaf value's content never contributes a label. -/
theorem validateMessagesSegment_leaf_independent
    (es1 es2 : AbstractIntlMessages)
    (h : eraseLeafValues es1 = eraseLeafValues es2) :
    validateMessagesSegment es1 [] none
      = validateMessagesSegment es2 [] none := by
  rw [validateMessagesSegment_nil_acc, validateMessagesSegment_nil_acc]
  rw [← segLabels_eraseLeafValues es1 none,
    ← segLabels_eraseLeafValues es2 none, h]

/-- Closed instance of C9: a leaf value containing `"."` produces the
same (empty) label list as one that does not. -/
theorem validateMessagesSegment_leaf_independent_witness :
    validateMessagesSegment [("greeting", IntlMessage.str "Hello. World.")]
        [] none
      = validateMessagesSegment [("greeting", IntlMessage.str "Hi")] [] none :=
  validateMessagesSegment_leaf_independent _ _ (by simp only [eraseLeafValues])

/-- C10: the default message fallback returns `namespace ++ "." ++ key`
when a namespace is provided and exactly the key, with no leading
separator, when the namespace is absent. -/
theorem defaultGetMessageFallback_spec (ns key : String) :
    defaultGetMessageFallback (some ns) key = ns ++ "." ++ key
      ∧ defaultGetMessageFallback none key = key :=
  ⟨rfl, rfl⟩
